import Mathlib

/-!
Shallow embedding of the feed-forward neural-network training engine
(`Deep-in-scratch_Maths_the_catch`) in Lean 4, together with theorems
settling the specification claims about it.

Modelling conventions:
* C++ `double` values are modelled as rationals (`ℚ`): all arithmetic the
  claims mention is exact on the inputs considered, and the transcendental
  library functions (`exp`, `tanh`, `cos`) are passed in as explicit
  function parameters, since the embedded code only pipes their results
  through field operations.
* `std::vector<double>` is `List ℚ`, row-major matrices are `List (List ℚ)`.
* A C++ function that can `throw` is embedded as `Except Err _`, with `Err`
  distinguishing `std::invalid_argument`, `std::runtime_error` and
  `std::logic_error`.
* Indexed reads `v[i]` are embedded as `List.getD v i 0` (the source only
  indexes in bounds, which the well-formedness hypotheses of the theorems
  guarantee).
-/

deriving instance DecidableEq for Except

/-- Error kinds thrown by the C++ sources. -/
inductive Err where
  | invalidArg : Err
  | runtimeErr : Err
  | logicErr : Err
deriving Repr, DecidableEq

namespace Losses

/-- `clamp` from `src/src/Metrics/Losses/4_cross_entropy.cpp` lines 14-16:
`(v < lo) ? lo : (hi < v) ? hi : v`. -/
def clamp (v lo hi : ℚ) : ℚ :=
  if v < lo then lo else if hi < v then hi else v

/-- `*std::max_element(l.begin(), l.end())` on a non-empty list
(defaulting to `0` on the empty list, which the source never passes). -/
def maxElem : List ℚ → ℚ
  | [] => 0
  | x :: xs => xs.foldl max x

/-- `softmax` from `4_cross_entropy.cpp` lines 18-32: subtract the maximal
logit, exponentiate, normalise by the sum.  `fexp` stands for `std::exp`. -/
def softmax (fexp : ℚ → ℚ) (logits : List ℚ) : List ℚ :=
  let max_logit := maxElem logits
  let exps := logits.map (fun xi => fexp (xi - max_logit))
  let sum := exps.sum
  exps.map (fun v => v / sum)

/-- `mse_loss` from `src/src/Metrics/Losses/1_mse.cpp` lines 12-19:
throws on empty or mismatched input, else returns
`Σ (y_true[i] - y_pred[i])^2 / (2 * n)`. -/
def mse_loss (y_true y_pred : List ℚ) : Except Err ℚ :=
  if y_true.isEmpty ∨ y_true.length ≠ y_pred.length then .error .invalidArg
  else .ok (((List.range y_true.length).map
      (fun i => (y_true.getD i 0 - y_pred.getD i 0) ^ 2)).sum
      / (2 * (y_true.length : ℚ)))

/-- `mse_derivative` from `1_mse.cpp` lines 21-28:
`grad[i] = (y_pred[i] - y_true[i]) / n`. -/
def mse_derivative (y_true y_pred : List ℚ) : Except Err (List ℚ) :=
  if y_true.isEmpty ∨ y_true.length ≠ y_pred.length then .error .invalidArg
  else .ok ((List.range y_true.length).map
      (fun i => (y_pred.getD i 0 - y_true.getD i 0) / (y_true.length : ℚ)))

/-- `cross_entropy_derivative` from `4_cross_entropy.cpp` lines 60-82.
With `from_logits` the gradient is `softmax(y_pred)[i] - y_true[i]`;
otherwise it is `-y_true[i] / clamp(y_pred[i], eps, 1-eps)` with
`eps = 1e-7`. -/
def cross_entropy_derivative (fexp : ℚ → ℚ) (y_true y_pred : List ℚ)
    (from_logits : Bool) : Except Err (List ℚ) :=
  if y_true.length ≠ y_pred.length ∨ y_true.isEmpty then .error .invalidArg
  else if from_logits then
    let probs := softmax fexp y_pred
    .ok ((List.range y_true.length).map
      (fun i => probs.getD i 0 - y_true.getD i 0))
  else
    let eps : ℚ := 1e-7
    .ok ((List.range y_true.length).map
      (fun i => -(y_true.getD i 0) / clamp (y_pred.getD i 0) eps (1 - eps)))

/-- One-hot target: every entry is `0` or `1` and exactly one entry is `1`. -/
def isOneHot (v : List ℚ) : Prop :=
  v.count 1 = 1 ∧ ∀ x ∈ v, x = 1 ∨ x = 0

instance (v : List ℚ) : Decidable (isOneHot v) := by
  unfold isOneHot; infer_instance

end Losses

/-- State of a `DenseLayer` (`src/include/Layers/DenseLayer.h`,
`src/src/Layers/DenseLayer.cpp`): fixed dimensions, weight matrix
`weights[out][in]`, biases, accumulated gradients and the cached input. -/
structure DenseLayer where
  input_size : ℕ
  output_size : ℕ
  weights : List (List ℚ)
  biases : List ℚ
  grad_weights : List (List ℚ)
  grad_biases : List ℚ
  input_cache : List ℚ
deriving Repr, DecidableEq

/-- Shape discipline established by the `DenseLayer` constructor
(`DenseLayer.cpp` lines 6-19) and preserved by every member function:
positive dimensions, `weights`/`grad_weights` are `out × in`,
`biases`/`grad_biases` have length `out`. -/
def DenseLayer.Wf (l : DenseLayer) : Prop :=
  0 < l.input_size ∧ 0 < l.output_size ∧
  l.weights.length = l.output_size ∧
  (∀ row ∈ l.weights, row.length = l.input_size) ∧
  l.biases.length = l.output_size ∧
  l.grad_weights.length = l.output_size ∧
  (∀ row ∈ l.grad_weights, row.length = l.input_size) ∧
  l.grad_biases.length = l.output_size

instance (l : DenseLayer) : Decidable l.Wf := by
  unfold DenseLayer.Wf; infer_instance

/-- `DenseLayer::forward` (`DenseLayer.cpp` lines 44-70): size check
(`invalid_argument`), initialisation check (`runtime_error`), cache the
input, return `W·x + b` computed by the double loop
`output[i] = Σ_j weights[i][j]·input[j] + biases[i]`. -/
def DenseLayer.forward (l : DenseLayer) (input : List ℚ) :
    Except Err (DenseLayer × List ℚ) :=
  if input.length ≠ l.input_size then .error .invalidArg
  else if l.weights.isEmpty ∨ l.biases.isEmpty then .error .runtimeErr
  else .ok ({ l with input_cache := input },
    (List.range l.output_size).map (fun i =>
      ((List.range l.input_size).map
        (fun j => (l.weights.getD i []).getD j 0 * input.getD j 0)).sum
      + l.biases.getD i 0))

/-- `DenseLayer::backward` (`DenseLayer.cpp` lines 72-103): size check,
cached-input check, `grad_input[i] = Σ_j weights[j][i]·grad_output[j]`,
and accumulation `grad_weights[i][j] += grad_output[i]·input_cache[j]`,
`grad_biases[i] += grad_output[i]`.  The loops run over
`i < output_size`, `j < input_size`, which is exactly the shape of the
gradient arrays created by the constructor, so the in-place `+=` is
rendered as a pointwise rebuild over those ranges. -/
def DenseLayer.backward (l : DenseLayer) (grad_output : List ℚ) :
    Except Err (DenseLayer × List ℚ) :=
  if grad_output.length ≠ l.output_size then .error .invalidArg
  else if l.input_cache.isEmpty then .error .runtimeErr
  else
    let grad_input := (List.range l.input_size).map (fun i =>
      ((List.range l.output_size).map
        (fun j => (l.weights.getD j []).getD i 0 * grad_output.getD j 0)).sum)
    let gw := (List.range l.output_size).map (fun i =>
      (List.range l.input_size).map (fun j =>
        (l.grad_weights.getD i []).getD j 0
        + grad_output.getD i 0 * l.input_cache.getD j 0))
    let gb := (List.range l.output_size).map (fun i =>
      l.grad_biases.getD i 0 + grad_output.getD i 0)
    .ok ({ l with grad_weights := gw, grad_biases := gb }, grad_input)

/-- `DenseLayer::clearGradients` (`DenseLayer.cpp` lines 121-126):
`std::fill` of both gradient arrays with `0.0`, shapes kept. -/
def DenseLayer.clearGradients (l : DenseLayer) : DenseLayer :=
  { l with grad_weights := l.grad_weights.map (fun row => row.map (fun _ => (0 : ℚ))),
           grad_biases := l.grad_biases.map (fun _ => (0 : ℚ)) }

/-- A training micro-loop for the accumulation claim: run
`forward(x); backward(g)` for each `(x, g)` sample in turn, with no
`clearGradients` in between. -/
def DenseLayer.runPairs (l : DenseLayer) :
    List (List ℚ × List ℚ) → Except Err DenseLayer
  | [] => .ok l
  | (x, g) :: rest => do
    let fr ← l.forward x
    let br ← fr.1.backward g
    DenseLayer.runPairs br.1 rest

/-- `ActivationType` from `src/include/Layers/Activation_utils.h`. -/
inductive ActivationType where
  | RELU | LEAKY_RELU | SIGMOID | TANH | LINEAR | SOFTMAX | SELU
deriving Repr, DecidableEq

/-- `activationDerivative` (`src/src/Layers/Activation_utils.cpp` lines
71-119): empty input returns an empty vector *before* the switch; the
`SOFTMAX` case throws `logic_error`; the other cases are the elementwise
derivative formulas.  `fexp`, `ftanh` stand for `std::exp`, `std::tanh`. -/
def activationDerivative (fexp ftanh : ℚ → ℚ) (x : List ℚ)
    (act_type : ActivationType) (alpha lambda : ℚ) : Except Err (List ℚ) :=
  if x.isEmpty then .ok []
  else match act_type with
  | .RELU => .ok (x.map (fun xi => if 0 < xi then 1 else 0))
  | .LEAKY_RELU => .ok (x.map (fun xi => if 0 < xi then 1 else alpha))
  | .SIGMOID => .ok (x.map (fun xi =>
      let sig := 1 / (1 + fexp (-xi)); sig * (1 - sig)))
  | .TANH => .ok (x.map (fun xi => let t := ftanh xi; 1 - t * t))
  | .LINEAR => .ok (List.replicate x.length 1)
  | .SOFTMAX => .error .logicErr
  | .SELU => .ok (x.map (fun xi =>
      if 0 < xi then lambda else lambda * alpha * fexp xi))

/-- State of an `ActivationLayer` (`src/include/Layers/ActivationLayer.h`):
the activation kind, its shape parameters and the cached input. -/
structure ActivationLayer where
  activation_type : ActivationType
  alpha : ℚ
  lambda : ℚ
  input_cache : List ℚ
deriving Repr, DecidableEq

/-- `ActivationLayer::backward` (`src/src/Layers/ActivationLayer.cpp`
lines 26-49): empty gradient throws `invalid_argument`; a cache/gradient
size mismatch throws `logic_error`; `SOFTMAX` returns the gradient
unchanged; otherwise the result is
`grad_input[i] = grad_output[i] * deriv[i]` with `deriv` from
`activationDerivative` on the cached input. -/
def ActivationLayer.backward (fexp ftanh : ℚ → ℚ) (l : ActivationLayer)
    (grad_output : List ℚ) : Except Err (List ℚ) :=
  if grad_output.isEmpty then .error .invalidArg
  else if l.input_cache.length ≠ grad_output.length then .error .logicErr
  else if l.activation_type = .SOFTMAX then .ok grad_output
  else do
    let deriv ← activationDerivative fexp ftanh l.input_cache
      l.activation_type l.alpha l.lambda
    .ok (List.zipWith (fun gi di => gi * di) grad_output deriv)

/-- The optimizer sees layers as `BaseLayer*` pointers and recovers the
dense ones by `dynamic_cast<DenseLayer*>`.  `ptr` models the pointer
identity the velocity maps are keyed by; a non-dense layer (for which the
cast fails) is represented by the activation variant. -/
inductive BaseLayerM where
  | dense (ptr : ℕ) (d : DenseLayer) : BaseLayerM
  | activation (ptr : ℕ) (a : ActivationLayer) : BaseLayerM
deriving Repr, DecidableEq

/-- `m[k] = v` on a `std::unordered_map` when the key is present. -/
def assocUpdate {α : Type} (k : ℕ) (v : α) (m : List (ℕ × α)) : List (ℕ × α) :=
  m.map (fun kv => if kv.1 = k then (k, v) else kv)

/-- `SGD` state (`src/include/Optimizers/SGD.h` lines 8-28): learning
rate, its initial value, momentum, stored batch size, the (never read)
clipping threshold `clip_value_`, the two velocity maps keyed by layer
pointer, the optional scheduler and the step counter. -/
structure SGDState where
  learning_rate : ℚ
  initial_lr : ℚ
  momentum : ℚ
  batch_size : ℕ
  clip_value_ : ℚ
  velocity_weights : List (ℕ × List (List ℚ))
  velocity_biases : List (ℕ × List ℚ)
  lr_scheduler : Option (ℚ → ℕ → ℚ)
  step_count : ℕ

namespace SGD

/-- `SGD::updateLayer` (`src/src/Optimizers/SGD.cpp` lines 41-104).
A failed `dynamic_cast` returns with nothing touched.  For a dense layer:
lazily create zero velocity buffers when `momentum > 0`, set
`lr = learning_rate / batch_size`, update weights and biases (momentum
update `v ← momentum·v + lr·grad; param ← param − v`, else
`param ← param − lr·grad`), store them through the validated setters and
clear the layer's gradients.  `clip_value_` is never consulted.
The loops run over `i < output_size = weights.size()` and
`j < input_size = weights[0].size()`, which is the exact shape the
constructor gives every array involved, so the in-place writes are
rendered as guarded `mapIdx` rebuilds. -/
def updateLayer (s : SGDState) (layer : BaseLayerM) (batch_size : ℕ) :
    SGDState × BaseLayerM :=
  match layer with
  | .activation p a => (s, .activation p a)
  | .dense p d =>
    let output_size := d.weights.length
    let input_size := d.weights.headI.length
    let s1 :=
      if 0 < s.momentum ∧ (s.velocity_weights.lookup p).isNone then
        { s with
          velocity_weights :=
            (p, List.replicate output_size (List.replicate input_size (0 : ℚ)))
              :: s.velocity_weights,
          velocity_biases :=
            (p, List.replicate d.biases.length (0 : ℚ)) :: s.velocity_biases }
      else s
    let lr := s1.learning_rate / (batch_size : ℚ)
    if 0 < s1.momentum then
      let vw := (s1.velocity_weights.lookup p).getD []
      let vb := (s1.velocity_biases.lookup p).getD []
      let vw2 := vw.mapIdx (fun i row => row.mapIdx (fun j v =>
        if i < output_size ∧ j < input_size then
          s1.momentum * v + lr * ((d.grad_weights.getD i []).getD j 0)
        else v))
      let nw := d.weights.mapIdx (fun i row => row.mapIdx (fun j w =>
        if j < input_size then w - (vw2.getD i []).getD j 0 else w))
      let vb2 := vb.mapIdx (fun i v =>
        if i < d.biases.length then
          s1.momentum * v + lr * d.grad_biases.getD i 0
        else v)
      let nb := d.biases.mapIdx (fun i b => b - vb2.getD i 0)
      ({ s1 with velocity_weights := assocUpdate p vw2 s1.velocity_weights,
                 velocity_biases := assocUpdate p vb2 s1.velocity_biases },
       .dense p (({ d with weights := nw, biases := nb }).clearGradients))
    else
      let nw := d.weights.mapIdx (fun i row => row.mapIdx (fun j w =>
        if j < input_size then
          w - lr * ((d.grad_weights.getD i []).getD j 0)
        else w))
      let nb := d.biases.mapIdx (fun i b => b - lr * d.grad_biases.getD i 0)
      (s1, .dense p (({ d with weights := nw, biases := nb }).clearGradients))

/-- The `for (BaseLayer* layer : layers) updateLayer(layer, batch_size);`
loop of `SGD::step`, threading the optimizer state left to right. -/
def stepFold (s : SGDState) (layers : List BaseLayerM) (batch_size : ℕ) :
    SGDState × List BaseLayerM :=
  match layers with
  | [] => (s, [])
  | l :: rest =>
    let r := updateLayer s l batch_size
    let r2 := stepFold r.1 rest batch_size
    (r2.1, r.2 :: r2.2)

/-- `SGD::step` (`SGD.cpp` lines 32-39): `batch_size == 0` throws
`invalid_argument`, otherwise every layer is passed to `updateLayer`. -/
def step (s : SGDState) (layers : List BaseLayerM) (batch_size : ℕ) :
    Except Err (SGDState × List BaseLayerM) :=
  if batch_size = 0 then .error .invalidArg
  else .ok (stepFold s layers batch_size)

/-- `SGD::afterStep` (`SGD.cpp` lines 9-14): increment `step_count`,
then recompute `learning_rate` from the scheduler when one is set. -/
def afterStep (s : SGDState) : SGDState :=
  let s1 := { s with step_count := s.step_count + 1 }
  match s1.lr_scheduler with
  | some f => { s1 with learning_rate := f s1.initial_lr s1.step_count }
  | none => s1

/-- `SGD::setLearningRate` (`SGD.cpp` lines 21-25). -/
def setLearningRate (s : SGDState) (lr : ℚ) : SGDState :=
  let s1 := { s with learning_rate := lr }
  if s1.lr_scheduler.isNone then { s1 with initial_lr := lr } else s1

/-- `SGD::decayLearningRate` (`SGD.cpp` lines 27-30). -/
def decayLearningRate (s : SGDState) (decay_factor : ℚ) : SGDState :=
  let s1 := { s with learning_rate := s.learning_rate * decay_factor }
  if s1.lr_scheduler.isNone then { s1 with initial_lr := s1.learning_rate }
  else s1

/-- `SGD::resetStepCount` (`SGD.h` line 61): `step_count = 0`. -/
def resetStepCount (s : SGDState) : SGDState := { s with step_count := 0 }

/-- `SGD::setGradientClip` (`SGD.h` line 57): `clip_value_ = clip`. -/
def setGradientClip (s : SGDState) (clip : ℚ) : SGDState :=
  { s with clip_value_ := clip }

end SGD

/-- `DataLoader` state (`src/include/Data/DataLoader.h`): the number of
rows of the borrowed dataset, the batch size, the shuffle flag and the
current index permutation.  The Mersenne-Twister engine is modelled by
passing the permutation `std::shuffle` would produce to `reset`. -/
structure DataLoaderM where
  n : ℕ
  batch_size : ℕ
  shuffle : Bool
  indices : List ℕ
deriving Repr, DecidableEq

/-- `DataLoader::reset` (`src/src/Data/DataLoader.cpp` lines 9-15):
`indices` becomes `[0..n)` (`resize` + `iota`), shuffled when the flag is
set; `shuf` stands for the permutation `std::shuffle` applies. -/
def DataLoaderM.reset (shuf : List ℕ → List ℕ) (dl : DataLoaderM) :
    DataLoaderM :=
  let base := List.range dl.n
  { dl with indices := if dl.shuffle then shuf base else base }

/-- `DataLoader::begin` (`DataLoader.cpp` lines 47-49): it merely
constructs `Iterator(*this, 0)` — it does *not* call `reset()`, so the
loader state (in particular `indices`) is returned unchanged. -/
def DataLoaderM.begin (dl : DataLoaderM) : ℕ × DataLoaderM := (0, dl)

/-- `DataLoader::Iterator::getIndices` (`DataLoader.cpp` lines 20-27):
the slice `loader.indices[cursor .. min(cursor+batch_size, n))`. -/
def DataLoaderM.getIndices (dl : DataLoaderM) (cursor : ℕ) : List ℕ :=
  let e := min (cursor + dl.batch_size) dl.n
  (List.range' cursor (e - cursor)).map (fun i => dl.indices.getD i 0)

/-- The cursors visited by one `begin()/operator++/!= end()` traversal:
start at `c`, stop as soon as `cursor < n` fails, advance by `bs`.
(The `0 < bs` guard only expresses that the C++ loop with `bs = 0` never
terminates.) -/
def epochCursors (n bs c : ℕ) : List ℕ :=
  if _h : 0 < bs ∧ c < n then c :: epochCursors n bs (c + bs) else []
termination_by n - c
decreasing_by omega

/-- The index sets of all batches yielded in one epoch. -/
def DataLoaderM.epochBatches (dl : DataLoaderM) : List (List ℕ) :=
  (epochCursors dl.n dl.batch_size 0).map dl.getIndices

namespace Schedulers

/-- The `M_PI` constant used by `src/include/Utils/Scheduler.h`. -/
def M_PI : ℚ := 3.14159265358979323846

/-- `Schedulers::cosine_warmup` (`Scheduler.h` lines 21-37): throws
`invalid_argument` when `total_steps <= warmup_steps`, else returns the
closure: linear warm-up `min_lr + (init_lr - min_lr)·step/warmup_steps`
for `step < warmup_steps`, cosine decay
`min_lr + (init_lr - min_lr)·½(1 + cos(M_PI·progress))` with
`progress = min(1, (step - warmup)/(total - warmup))` otherwise.
`fcos` stands for `std::cos`. -/
def cosine_warmup (fcos : ℚ → ℚ) (min_lr : ℚ)
    (total_steps warmup_steps : ℕ) : Except Err (ℚ → ℕ → ℚ) :=
  if total_steps ≤ warmup_steps then .error .invalidArg
  else .ok (fun init_lr step =>
    if step < warmup_steps then
      min_lr + (init_lr - min_lr) * (step : ℚ) / (warmup_steps : ℚ)
    else
      let progress : ℚ :=
        min 1 (((step - warmup_steps : ℕ) : ℚ) / ((total_steps - warmup_steps : ℕ) : ℚ))
      let cosine := 1/2 * (1 + fcos (M_PI * progress))
      min_lr + (init_lr - min_lr) * cosine)

end Schedulers

/-! ## General lemmas -/

theorem getD_range_map {α : Type} (f : ℕ → α) (d : α) {n i : ℕ} (h : i < n) :
    ((List.range n).map f).getD i d = f i := by
  rw [List.getD_eq_getElem?_getD]
  simp [List.getElem?_range h]

theorem except_bind_ok {ε α β : Type} (a : α) (f : α → Except ε β) :
    (Except.ok a >>= f : Except ε β) = f a := rfl

/-! ## C1 — gradient clipping is configured but never applied -/

/-- **C1.**  The claim states that `SGD::step` clips each gradient
component to `[-clip, clip]` when a positive clip value has been set via
`setGradientClip`.  The code never reads `clip_value_`: with
`learning_rate = 1`, `momentum = 0`, `clip_value_ = 1`, a single dense
layer holding accumulated weight gradient `10`, and `batch_size = 2`,
`step` normalises the gradient to `10/2 = 5` and applies the *unclipped*
update `0 - 1·5 = -5` (and then clears the gradients); clipping the
normalised gradient to `[-1, 1]` as claimed would give `0 - 1·1 = -1`. -/
theorem sgd_step_ignores_gradient_clip :
    (SGD.step ⟨1, 1, 0, 0, 1, [], [], none, 0⟩
        [.dense 0 ⟨1, 1, [[0]], [0], [[10]], [0], [1]⟩] 2).map (fun r => r.2)
      = .ok [.dense 0 ⟨1, 1, [[-5]], [0], [[0]], [0], [1]⟩]
    ∧ (-5 : ℚ) ≠ -1 := by
  constructor
  · simp [SGD.step, SGD.stepFold, SGD.updateLayer, DenseLayer.clearGradients,
      Except.map]
    norm_num
  · norm_num

/-! ## C2 — MSE is implemented as the half mean squared error -/

/-- **C2 counterexample.**  The claim states `mse_loss` returns the mean
of squared differences and `mse_derivative` returns `2·(pred-true)/n`.
On `y_true = [0]`, `y_pred = [2]` the code returns loss `2` (the claim
says `4`) and gradient `[2]` (the claim says `[4]`). -/
theorem mse_claim_counterexample :
    (Losses.mse_loss [0] [2] = .ok 2 ∧ (2 : ℚ) ≠ 4)
    ∧ (Losses.mse_derivative [0] [2] = .ok [2] ∧ ([2] : List ℚ) ≠ [4]) := by
  refine ⟨⟨?_, by norm_num⟩, ⟨?_, by norm_num⟩⟩
  · norm_num [Losses.mse_loss, List.range_succ]
  · norm_num [Losses.mse_derivative, List.range_succ]

/-- **C2 (amended).**  For every pair of non-empty equal-length vectors of
length `n`, `mse_loss` returns `(1/(2n))·Σᵢ (y_pred[i] − y_true[i])²`
(half the mean squared difference) and `mse_derivative` returns the
vector whose `i`-th component is `(y_pred[i] − y_true[i])/n`. -/
theorem mse_half_mean_spec (y_true y_pred : List ℚ)
    (hne : y_true ≠ []) (hlen : y_true.length = y_pred.length) :
    Losses.mse_loss y_true y_pred
      = .ok (((List.range y_true.length).map
          (fun i => (y_pred.getD i 0 - y_true.getD i 0) ^ 2)).sum
          / (2 * (y_true.length : ℚ)))
    ∧ ∃ g, Losses.mse_derivative y_true y_pred = .ok g
        ∧ g.length = y_true.length
        ∧ ∀ i < y_true.length,
            g.getD i 0 = (y_pred.getD i 0 - y_true.getD i 0) / (y_true.length : ℚ) := by
  have hemp : y_true.isEmpty = false := by
    simpa [List.isEmpty_iff] using hne
  constructor
  · simp only [Losses.mse_loss, hemp, hlen, Bool.false_eq_true, ne_eq,
      not_true_eq_false, or_self, if_false]
    have hmap : (List.range y_pred.length).map
          (fun i => (y_true.getD i 0 - y_pred.getD i 0) ^ 2)
        = (List.range y_pred.length).map
          (fun i => (y_pred.getD i 0 - y_true.getD i 0) ^ 2) :=
      List.map_congr_left (fun i _ => by ring)
    rw [hmap]
  · refine ⟨(List.range y_true.length).map
        (fun i => (y_pred.getD i 0 - y_true.getD i 0) / (y_true.length : ℚ)), ?_, ?_, ?_⟩
    · simp [Losses.mse_derivative, hemp, hlen]
    · simp
    · intro i hi
      exact getD_range_map _ _ hi

/-- **C2 witness.** -/
theorem mse_half_mean_spec_witness :
    ([0] : List ℚ) ≠ [] ∧ ([0] : List ℚ).length = ([2] : List ℚ).length
    ∧ (Losses.mse_loss [0] [2]
        = .ok (((List.range 1).map (fun i =>
            (([2] : List ℚ).getD i 0 - ([0] : List ℚ).getD i 0) ^ 2)).sum / (2 * (1 : ℚ)))
      ∧ ∃ g, Losses.mse_derivative [0] [2] = .ok g
          ∧ g.length = ([0] : List ℚ).length
          ∧ ∀ i < ([0] : List ℚ).length,
              g.getD i 0 = (([2] : List ℚ).getD i 0 - ([0] : List ℚ).getD i 0)
                / (([0] : List ℚ).length : ℚ)) := by
  refine ⟨by simp, by simp, ?_⟩
  simpa using mse_half_mean_spec [0] [2] (by simp) (by simp)

/-! ## C3 — cross-entropy gradient on probability inputs -/

/-- **C3 counterexample.**  The claim states that with
`from_logits = false` the gradient is `p − y_true`.  On the one-hot
target `[1, 0]` and prediction `[1/2, 1/2]` (all of the claim's
hypotheses hold) the code returns `[-2, 0]` — the formula
`-y_true[i]/p[i]` — while `p − y_true = [-1/2, 1/2]`. -/
theorem cross_entropy_derivative_claim_counterexample :
    Losses.isOneHot [1, 0]
    ∧ Losses.cross_entropy_derivative id [1, 0] [1/2, 1/2] false = .ok [-2, 0]
    ∧ ([-2, 0] : List ℚ) ≠ [-1/2, 1/2] := by
  refine ⟨?_, ?_, by norm_num⟩
  · constructor
    · norm_num [List.count_cons]
    · intro x hx
      simp at hx
      rcases hx with h | h <;> simp [h]
  · norm_num [Losses.cross_entropy_derivative, Losses.clamp, List.range_succ]

/-- **C3 (amended).**  For every pair of non-empty equal-length vectors
with one-hot `y_true`: with `from_logits = true`,
`cross_entropy_derivative` returns `softmax(y_pred) − y_true`, the
softmax subtracting the maximal logit before exponentiating; with
`from_logits = false` it returns the vector with components
`−y_true[i] / clamp(y_pred[i], 1e-7, 1 − 1e-7)` (not `p − y_true`). -/
theorem cross_entropy_derivative_spec (fexp : ℚ → ℚ) (y_true y_pred : List ℚ)
    (hne : y_true ≠ []) (hlen : y_true.length = y_pred.length)
    (_honehot : Losses.isOneHot y_true) :
    (∃ g, Losses.cross_entropy_derivative fexp y_true y_pred true = .ok g
       ∧ g.length = y_true.length
       ∧ ∀ i < y_true.length,
           g.getD i 0 = (Losses.softmax fexp y_pred).getD i 0 - y_true.getD i 0)
    ∧ (∃ g, Losses.cross_entropy_derivative fexp y_true y_pred false = .ok g
       ∧ g.length = y_true.length
       ∧ ∀ i < y_true.length,
           g.getD i 0 = -(y_true.getD i 0)
             / Losses.clamp (y_pred.getD i 0) 1e-7 (1 - 1e-7)) := by
  have hemp : y_true.isEmpty = false := by
    simpa [List.isEmpty_iff] using hne
  constructor
  · refine ⟨(List.range y_true.length).map
        (fun i => (Losses.softmax fexp y_pred).getD i 0 - y_true.getD i 0), ?_, ?_, ?_⟩
    · simp [Losses.cross_entropy_derivative, hemp, hlen]
    · simp
    · intro i hi
      exact getD_range_map _ _ hi
  · refine ⟨(List.range y_true.length).map
        (fun i => -(y_true.getD i 0)
          / Losses.clamp (y_pred.getD i 0) 1e-7 (1 - 1e-7)), ?_, ?_, ?_⟩
    · simp [Losses.cross_entropy_derivative, hemp, hlen]
    · simp
    · intro i hi
      exact getD_range_map _ _ hi

/-- **C3 witness.** -/
theorem cross_entropy_derivative_spec_witness :
    ([1, 0] : List ℚ) ≠ [] ∧ ([1, 0] : List ℚ).length = ([3, 5] : List ℚ).length
    ∧ Losses.isOneHot [1, 0]
    ∧ ((∃ g, Losses.cross_entropy_derivative id [1, 0] [3, 5] true = .ok g
        ∧ g.length = ([1, 0] : List ℚ).length
        ∧ ∀ i < ([1, 0] : List ℚ).length,
            g.getD i 0 = (Losses.softmax id [3, 5]).getD i 0 - ([1, 0] : List ℚ).getD i 0)
      ∧ (∃ g, Losses.cross_entropy_derivative id [1, 0] [3, 5] false = .ok g
        ∧ g.length = ([1, 0] : List ℚ).length
        ∧ ∀ i < ([1, 0] : List ℚ).length,
            g.getD i 0 = -(([1, 0] : List ℚ).getD i 0)
              / Losses.clamp (([3, 5] : List ℚ).getD i 0) 1e-7 (1 - 1e-7))) := by
  have honehot : Losses.isOneHot [1, 0] := by
    constructor
    · norm_num [List.count_cons]
    · intro x hx
      simp at hx
      rcases hx with h | h <;> simp [h]
  exact ⟨by simp, by simp, honehot,
    cross_entropy_derivative_spec id [1, 0] [3, 5] (by simp) (by simp) honehot⟩

/-! ## C5 — dense forward: cache, affine formula, size error -/

/-- **C5.**  For every well-formed dense layer (`in`, `out`, initialised
weights) and every input of length `in`, `forward` caches the input,
leaves parameters and gradients alone, and returns the length-`out`
vector with components `Σ_j W[i][j]·x[j] + b[i]`; every input of any
other length yields `invalid_argument`. -/
theorem dense_forward_spec (l : DenseLayer) (hWf : l.Wf) :
    (∀ x : List ℚ, x.length = l.input_size →
      ∃ l2 y, l.forward x = .ok (l2, y)
        ∧ l2.input_cache = x
        ∧ l2.weights = l.weights ∧ l2.biases = l.biases
        ∧ l2.grad_weights = l.grad_weights ∧ l2.grad_biases = l.grad_biases
        ∧ y.length = l.output_size
        ∧ ∀ i < l.output_size,
            y.getD i 0 = ((List.range l.input_size).map
                (fun j => (l.weights.getD i []).getD j 0 * x.getD j 0)).sum
              + l.biases.getD i 0)
    ∧ (∀ x : List ℚ, x.length ≠ l.input_size →
        l.forward x = .error .invalidArg) := by
  obtain ⟨hin, hout, hwl, _hrow, hbl, _⟩ := hWf
  have hwne : l.weights.isEmpty = false := by
    cases hw : l.weights with
    | nil => rw [hw] at hwl; simp at hwl; omega
    | cons a t => rfl
  have hbne : l.biases.isEmpty = false := by
    cases hb : l.biases with
    | nil => rw [hb] at hbl; simp at hbl; omega
    | cons a t => rfl
  constructor
  · intro x hx
    refine ⟨{ l with input_cache := x },
      (List.range l.output_size).map (fun i =>
        ((List.range l.input_size).map
          (fun j => (l.weights.getD i []).getD j 0 * x.getD j 0)).sum
        + l.biases.getD i 0), ?_, rfl, rfl, rfl, rfl, rfl, ?_, ?_⟩
    · simp [DenseLayer.forward, hx, hwne, hbne]
    · simp
    · intro i hi
      exact getD_range_map _ _ hi
  · intro x hx
    simp [DenseLayer.forward, hx]

/-- **C5 witness.** -/
theorem dense_forward_spec_witness :
    (⟨2, 1, [[1, 2]], [10], [[0, 0]], [0], []⟩ : DenseLayer).Wf
    ∧ (∃ l2 y, (⟨2, 1, [[1, 2]], [10], [[0, 0]], [0], []⟩ : DenseLayer).forward [3, 4]
        = .ok (l2, y)
        ∧ l2.input_cache = [3, 4]
        ∧ l2.weights = [[1, 2]] ∧ l2.biases = [10]
        ∧ l2.grad_weights = [[0, 0]] ∧ l2.grad_biases = [0]
        ∧ y.length = 1
        ∧ ∀ i < 1, y.getD i 0 = ((List.range 2).map
            (fun j => (([[1, 2]] : List (List ℚ)).getD i []).getD j 0
              * ([3, 4] : List ℚ).getD j 0)).sum + ([10] : List ℚ).getD i 0)
    ∧ (⟨2, 1, [[1, 2]], [10], [[0, 0]], [0], []⟩ : DenseLayer).forward [3]
        = .error .invalidArg := by
  have hWf : (⟨2, 1, [[1, 2]], [10], [[0, 0]], [0], []⟩ : DenseLayer).Wf := by
    refine ⟨by norm_num, by norm_num, by simp, ?_, by simp, by simp, ?_, by simp⟩
    · intro row hrow
      simp at hrow
      simp [hrow]
    · intro row hrow
      simp at hrow
      simp [hrow]
  obtain ⟨h1, h2⟩ := dense_forward_spec ⟨2, 1, [[1, 2]], [10], [[0, 0]], [0], []⟩ hWf
  exact ⟨hWf, h1 [3, 4] (by simp), h2 [3] (by simp)⟩

/-! ## C6 — begin() does not reset the loader -/

/-- **C6.**  The claim (and the header documentation of `begin()` at
`DataLoader.h` lines 95-101, "Resets indices and shuffling before
returning first batch") states that every `begin()` regenerates and
re-permutes the index permutation.  The implementation
(`DataLoader.cpp` lines 47-49) merely builds `Iterator(*this, 0)`:
`reset()` runs only in the constructor.  Consequently `begin` returns
the loader state — in particular the shuffled `indices` `[1, 0]` of the
concrete two-row loader below — completely unchanged, so restarting a
traversal reuses the previous permutation instead of reshuffling. -/
theorem dataloader_begin_does_not_reset :
    (DataLoaderM.begin ⟨2, 1, true, [1, 0]⟩).2.indices = [1, 0]
    ∧ ∀ dl : DataLoaderM, dl.begin = (0, dl) :=
  ⟨rfl, fun _ => rfl⟩

/-! ## C8 — activation backward and the softmax derivative error -/

/-- **C8 counterexample.**  The claim states that requesting the softmax
derivative directly always raises a logic error.  `activationDerivative`
returns an empty vector for an empty input *before* dispatching on the
kind (`Activation_utils.cpp` line 73), so on `x = []` with
`SOFTMAX` it succeeds instead of throwing. -/
theorem softmax_derivative_empty_counterexample :
    activationDerivative id id [] .SOFTMAX 0 0 = .ok []
    ∧ (Except.ok ([] : List ℚ) : Except Err (List ℚ)) ≠ .error .logicErr := by
  exact ⟨rfl, by simp⟩

/-- **C8 (amended).**  After a matching forward call (non-empty gradient
of the cached input's length): a softmax layer's `backward` returns the
gradient unchanged; for every other kind `backward` multiplies the
gradient elementwise with `activationDerivative` of the cached input,
which succeeds.  Directly requesting the softmax derivative raises a
logic error for every *non-empty* input (an empty input returns an
empty vector). -/
theorem activation_backward_spec :
    (∀ (fexp ftanh : ℚ → ℚ) (l : ActivationLayer) (g : List ℚ),
      g ≠ [] → l.input_cache.length = g.length →
      (l.activation_type = .SOFTMAX →
        ActivationLayer.backward fexp ftanh l g = .ok g)
      ∧ (l.activation_type ≠ .SOFTMAX →
        ∃ d, activationDerivative fexp ftanh l.input_cache l.activation_type
            l.alpha l.lambda = .ok d
          ∧ d.length = g.length
          ∧ ActivationLayer.backward fexp ftanh l g
              = .ok (List.zipWith (fun gi di => gi * di) g d)))
    ∧ (∀ (fexp ftanh : ℚ → ℚ) (x : List ℚ) (a lam : ℚ), x ≠ [] →
        activationDerivative fexp ftanh x .SOFTMAX a lam = .error .logicErr) := by
  constructor
  · intro fexp ftanh l g hg hlen
    have hge : g.isEmpty = false := by
      cases g with
      | nil => exact absurd rfl hg
      | cons a t => rfl
    have hcne : l.input_cache ≠ [] := by
      intro h
      rw [h] at hlen
      simp at hlen
      exact hg (List.length_eq_zero.mp hlen.symm)
    have hcemp : l.input_cache.isEmpty = false := by
      cases hc : l.input_cache with
      | nil => exact absurd hc hcne
      | cons a t => rfl
    constructor
    · intro hsm
      simp [ActivationLayer.backward, hge, hlen, hsm]
    · intro hsm
      cases h : l.activation_type with
      | SOFTMAX => exact absurd h hsm
      | RELU =>
        exact ⟨l.input_cache.map (fun xi => if 0 < xi then (1 : ℚ) else 0),
          by simp [activationDerivative, hcemp],
          by simpa using hlen,
          by simp [ActivationLayer.backward, hge, hlen, h,
            activationDerivative, hcemp, except_bind_ok]⟩
      | LEAKY_RELU =>
        exact ⟨l.input_cache.map (fun xi => if 0 < xi then (1 : ℚ) else l.alpha),
          by simp [activationDerivative, hcemp],
          by simpa using hlen,
          by simp [ActivationLayer.backward, hge, hlen, h,
            activationDerivative, hcemp, except_bind_ok]⟩
      | SIGMOID =>
        exact ⟨l.input_cache.map (fun xi =>
            (1 / (1 + fexp (-xi))) * (1 - 1 / (1 + fexp (-xi)))),
          by simp [activationDerivative, hcemp],
          by simpa using hlen,
          by simp [ActivationLayer.backward, hge, hlen, h,
            activationDerivative, hcemp, except_bind_ok]⟩
      | TANH =>
        exact ⟨l.input_cache.map (fun xi => 1 - ftanh xi * ftanh xi),
          by simp [activationDerivative, hcemp],
          by simpa using hlen,
          by simp [ActivationLayer.backward, hge, hlen, h,
            activationDerivative, hcemp, except_bind_ok]⟩
      | LINEAR =>
        exact ⟨List.replicate l.input_cache.length 1,
          by simp [activationDerivative, hcemp],
          by simpa using hlen,
          by simp [ActivationLayer.backward, hge, hlen, h,
            activationDerivative, hcemp, except_bind_ok]⟩
      | SELU =>
        exact ⟨l.input_cache.map (fun xi =>
            if 0 < xi then l.lambda else l.lambda * l.alpha * fexp xi),
          by simp [activationDerivative, hcemp],
          by simpa using hlen,
          by simp [ActivationLayer.backward, hge, hlen, h,
            activationDerivative, hcemp, except_bind_ok]⟩
  · intro fexp ftanh x a lam hx
    have hemp : x.isEmpty = false := by
      cases hc : x with
      | nil => exact absurd hc hx
      | cons b t => rfl
    simp [activationDerivative, hemp]

/-- **C8 witness.** -/
theorem activation_backward_spec_witness :
    (([5] : List ℚ) ≠ []
      ∧ (⟨.SOFTMAX, 0, 0, [1]⟩ : ActivationLayer).input_cache.length
          = ([5] : List ℚ).length
      ∧ ActivationLayer.backward id id ⟨.SOFTMAX, 0, 0, [1]⟩ [5] = .ok [5])
    ∧ ((⟨.RELU, 0, 0, [1]⟩ : ActivationLayer).activation_type ≠ .SOFTMAX
      ∧ ∃ d, activationDerivative id id [1] .RELU 0 0 = .ok d
          ∧ d.length = ([5] : List ℚ).length
          ∧ ActivationLayer.backward id id ⟨.RELU, 0, 0, [1]⟩ [5]
              = .ok (List.zipWith (fun gi di => gi * di) [5] d))
    ∧ (([1] : List ℚ) ≠ []
      ∧ activationDerivative id id [1] .SOFTMAX 0 0 = .error .logicErr) := by
  have h1 := (activation_backward_spec.1 id id ⟨.SOFTMAX, 0, 0, [1]⟩ [5]
    (by simp) (by simp)).1 rfl
  have h2 := (activation_backward_spec.1 id id ⟨.RELU, 0, 0, [1]⟩ [5]
    (by simp) (by simp)).2 (by simp)
  have h3 := activation_backward_spec.2 id id [1] 0 0 (by simp)
  exact ⟨⟨by simp, by simp, h1⟩, ⟨by simp, h2⟩, ⟨by simp, h3⟩⟩

/-! ## C9 — cosine-warmup schedule boundaries -/

/-- **C9 counterexample.**  The claim states that whenever
`cosine_warmup` does not throw, the schedule yields exactly `min_lr` at
step 0 for *every* `initial_lr`.  `warmup_steps = 0` passes the
`total_steps <= warmup_steps` check, but then step 0 falls into the
cosine branch with `progress = 0`, so the schedule returns
`min_lr + (init_lr - min_lr)·½(1 + cos 0) = init_lr`: with `min_lr = 0`,
`total_steps = 10`, `warmup_steps = 0` and `init_lr = 1` the code yields
`1`, not `min_lr = 0`.  (The cosine model is only evaluated at `0`,
where `cos` is exactly `1`; `1 - x²/2` agrees with it there.) -/
theorem cosine_warmup_zero_warmup_counterexample :
    (Schedulers.cosine_warmup (fun x => 1 - x ^ 2 / 2) 0 10 0).map
        (fun sched => sched 1 0) = .ok 1
    ∧ (1 : ℚ) ≠ 0 := by
  constructor
  · norm_num [Schedulers.cosine_warmup, Except.map]
  · norm_num

/-- **C9 (amended).**  `cosine_warmup(min_lr, total_steps, warmup_steps)`
raises invalid-argument iff `total_steps ≤ warmup_steps`.  Otherwise,
whenever `warmup_steps > 0` the schedule yields exactly `min_lr` at step
0 (with `warmup_steps = 0` it yields `initial_lr` there), and at
`step = total_steps` it yields a value within `1e-9` of `min_lr`
(exactly `min_lr` with the exact cosine, `cos π = −1`). -/
theorem cosine_warmup_boundaries (fcos : ℚ → ℚ) (min_lr : ℚ)
    (total_steps warmup_steps : ℕ) (init_lr : ℚ) :
    ((Schedulers.cosine_warmup fcos min_lr total_steps warmup_steps
        = .error .invalidArg) ↔ total_steps ≤ warmup_steps)
    ∧ (warmup_steps < total_steps → 0 < warmup_steps →
        (Schedulers.cosine_warmup fcos min_lr total_steps warmup_steps).map
          (fun sched => sched init_lr 0) = .ok min_lr)
    ∧ (warmup_steps < total_steps → fcos Schedulers.M_PI = -1 →
        ∃ v, (Schedulers.cosine_warmup fcos min_lr total_steps warmup_steps).map
            (fun sched => sched init_lr total_steps) = .ok v
          ∧ |v - min_lr| ≤ 1e-9) := by
  refine ⟨?_, ?_, ?_⟩
  · by_cases h : total_steps ≤ warmup_steps <;>
      simp [Schedulers.cosine_warmup, h]
  · intro hlt hw
    have h : ¬ total_steps ≤ warmup_steps := by omega
    simp only [Schedulers.cosine_warmup, h, if_false, Except.map, hw, if_pos]
    norm_num
  · intro hlt hcos
    have h : ¬ total_steps ≤ warmup_steps := by omega
    have hstep : ¬ total_steps < warmup_steps := by omega
    have hd : ((total_steps - warmup_steps : ℕ) : ℚ) ≠ 0 :=
      Nat.cast_ne_zero.mpr (by omega)
    refine ⟨min_lr, ?_, by norm_num⟩
    simp only [Schedulers.cosine_warmup, h, if_false, Except.map, hstep]
    rw [div_self hd]
    norm_num [hcos]

/-- **C9 witness.** -/
theorem cosine_warmup_boundaries_witness :
    ((Schedulers.cosine_warmup (fun _ => (-1 : ℚ)) 0 2 1 = .error .invalidArg)
        ↔ (2 : ℕ) ≤ 1)
    ∧ (Schedulers.cosine_warmup (fun _ => (-1 : ℚ)) 0 2 1).map
        (fun sched => sched 1 0) = .ok 0
    ∧ ∃ v, (Schedulers.cosine_warmup (fun _ => (-1 : ℚ)) 0 2 1).map
        (fun sched => sched 1 2) = .ok v ∧ |v - 0| ≤ 1e-9 := by
  obtain ⟨h1, h2, h3⟩ := cosine_warmup_boundaries (fun _ => (-1 : ℚ)) 0 2 1 1
  exact ⟨h1, h2 (by norm_num) (by norm_num), h3 (by norm_num) rfl⟩

/-! ## C10 — the frame of SGD::step -/

/-- Default element used to state positional layer-list lookups. -/
def defaultLayer : BaseLayerM := .activation 0 ⟨.RELU, 0, 0, []⟩

theorem updateLayer_state_frame (s : SGDState) (layer : BaseLayerM) (bs : ℕ) :
    (SGD.updateLayer s layer bs).1.learning_rate = s.learning_rate
    ∧ (SGD.updateLayer s layer bs).1.initial_lr = s.initial_lr
    ∧ (SGD.updateLayer s layer bs).1.step_count = s.step_count := by
  cases layer with
  | activation p a => exact ⟨rfl, rfl, rfl⟩
  | dense p d =>
    dsimp only [SGD.updateLayer]
    refine ⟨?_, ?_, ?_⟩ <;> (split <;> split <;> rfl)

theorem stepFold_frame (bs : ℕ) : ∀ (layers : List BaseLayerM) (s : SGDState),
    (SGD.stepFold s layers bs).1.learning_rate = s.learning_rate
    ∧ (SGD.stepFold s layers bs).1.initial_lr = s.initial_lr
    ∧ (SGD.stepFold s layers bs).1.step_count = s.step_count
    ∧ (SGD.stepFold s layers bs).2.length = layers.length
    ∧ ∀ i p a, layers.getD i defaultLayer = .activation p a →
        (SGD.stepFold s layers bs).2.getD i defaultLayer = .activation p a
  | [], s => by simp [SGD.stepFold]
  | l :: rest, s => by
    obtain ⟨ih1, ih2, ih3, ih4, ih5⟩ :=
      stepFold_frame bs rest (SGD.updateLayer s l bs).1
    obtain ⟨u1, u2, u3⟩ := updateLayer_state_frame s l bs
    simp only [SGD.stepFold]
    refine ⟨by rw [ih1, u1], by rw [ih2, u2], by rw [ih3, u3],
      by simp [ih4], ?_⟩
    intro i p a hi
    cases i with
    | zero =>
      rw [List.getD_cons_zero] at hi
      rw [List.getD_cons_zero]
      rw [hi]
      rfl
    | succ n =>
      rw [List.getD_cons_succ] at hi
      rw [List.getD_cons_succ]
      exact ih5 n p a hi

/-- **C10 counterexample.**  The claim states that `learning_rate`,
`initial_lr` and `step_count` change only through `afterStep`,
`setLearningRate` or `decayLearningRate`.  `SGD::resetStepCount`
(`SGD.h` line 61) is a fourth mutator: on a state with
`step_count = 5` it sets `step_count` to `0`. -/
theorem reset_step_count_mutates_counter :
    (SGD.resetStepCount ⟨1, 1, 0, 0, 0, [], [], none, 5⟩).step_count = 0
    ∧ (SGDState.mk 1 1 0 0 0 [] [] none 5).step_count = 5
    ∧ (0 : ℕ) ≠ 5 :=
  ⟨rfl, rfl, by decide⟩

/-- **C10 (amended).**  `SGD::step` mutates only dense layers: every
non-dense layer in the list is skipped (the failed `dynamic_cast`
returns immediately) and returned unchanged at its position; `step`
itself never changes `learning_rate`, `initial_lr` or `step_count` —
those change only through `afterStep` (which increments `step_count`
and applies the scheduler), `setLearningRate`, `decayLearningRate`, or
`resetStepCount` (which zeroes `step_count`). -/
theorem sgd_step_frame_spec (s : SGDState) (layers : List BaseLayerM)
    (bs : ℕ) (hbs : 0 < bs) :
    (∃ s2 layers2, SGD.step s layers bs = .ok (s2, layers2)
      ∧ layers2.length = layers.length
      ∧ (∀ i p a, layers.getD i defaultLayer = .activation p a →
          layers2.getD i defaultLayer = .activation p a)
      ∧ s2.learning_rate = s.learning_rate
      ∧ s2.initial_lr = s.initial_lr
      ∧ s2.step_count = s.step_count)
    ∧ (SGD.afterStep s).step_count = s.step_count + 1
    ∧ (∀ lr, (SGD.setLearningRate s lr).learning_rate = lr)
    ∧ (∀ f, (SGD.decayLearningRate s f).learning_rate = s.learning_rate * f)
    ∧ (SGD.resetStepCount s).step_count = 0 := by
  refine ⟨?_, ?_, ?_, ?_, rfl⟩
  · obtain ⟨h1, h2, h3, h4, h5⟩ := stepFold_frame bs layers s
    refine ⟨(SGD.stepFold s layers bs).1, (SGD.stepFold s layers bs).2, ?_,
      h4, h5, h1, h2, h3⟩
    simp [SGD.step, Nat.pos_iff_ne_zero.mp hbs]
  · cases hs : s.lr_scheduler <;> simp [SGD.afterStep, hs]
  · intro lr
    dsimp only [SGD.setLearningRate]
    split <;> rfl
  · intro f
    dsimp only [SGD.decayLearningRate]
    split <;> rfl

/-- **C10 witness.** -/
theorem sgd_step_frame_spec_witness :
    (0 : ℕ) < 1
    ∧ (∃ s2 layers2,
        SGD.step ⟨1, 1, 0, 0, 0, [], [], none, 0⟩ [defaultLayer] 1
          = .ok (s2, layers2)
        ∧ layers2.length = ([defaultLayer] : List BaseLayerM).length
        ∧ (∀ i p a,
            ([defaultLayer] : List BaseLayerM).getD i defaultLayer
              = .activation p a →
            layers2.getD i defaultLayer = .activation p a)
        ∧ s2.learning_rate = (1 : ℚ)
        ∧ s2.initial_lr = (1 : ℚ)
        ∧ s2.step_count = 0) :=
  ⟨by decide,
    (sgd_step_frame_spec ⟨1, 1, 0, 0, 0, [], [], none, 0⟩ [defaultLayer] 1
      (by decide)).1⟩

/-! ## C4 — gradients accumulate across backward calls -/

theorem isEmpty_false_of_length_pos {α : Type} (l : List α)
    (h : 0 < l.length) : l.isEmpty = false := by
  cases l with
  | nil => simp at h
  | cons a t => rfl

theorem forward_ok (l : DenseLayer) (x : List ℚ)
    (hx : x.length = l.input_size) (hw : l.weights.isEmpty = false)
    (hb : l.biases.isEmpty = false) :
    l.forward x = .ok ({ l with input_cache := x },
      (List.range l.output_size).map (fun i =>
        ((List.range l.input_size).map
          (fun j => (l.weights.getD i []).getD j 0 * x.getD j 0)).sum
        + l.biases.getD i 0)) := by
  simp [DenseLayer.forward, hx, hw, hb]

theorem backward_ok (l : DenseLayer) (g : List ℚ)
    (hg : g.length = l.output_size) (hc : l.input_cache.isEmpty = false) :
    l.backward g = .ok ({ l with
      grad_weights := (List.range l.output_size).map (fun i =>
        (List.range l.input_size).map (fun j =>
          (l.grad_weights.getD i []).getD j 0
          + g.getD i 0 * l.input_cache.getD j 0)),
      grad_biases := (List.range l.output_size).map (fun i =>
        l.grad_biases.getD i 0 + g.getD i 0) },
      (List.range l.input_size).map (fun i =>
        ((List.range l.output_size).map
          (fun j => (l.weights.getD j []).getD i 0 * g.getD j 0)).sum)) := by
  simp [DenseLayer.backward, hg, hc]

theorem runPairs_spec (samples : List (List ℚ × List ℚ)) :
    ∀ l : DenseLayer, l.Wf →
    (∀ sm ∈ samples, sm.1.length = l.input_size ∧ sm.2.length = l.output_size) →
    ∃ l2, l.runPairs samples = .ok l2
      ∧ l2.input_size = l.input_size
      ∧ l2.output_size = l.output_size
      ∧ l2.weights = l.weights
      ∧ l2.biases = l.biases
      ∧ (∀ i < l.output_size, ∀ j < l.input_size,
          (l2.grad_weights.getD i []).getD j 0
            = (l.grad_weights.getD i []).getD j 0
              + (samples.map (fun sm => sm.2.getD i 0 * sm.1.getD j 0)).sum)
      ∧ (∀ i < l.output_size,
          l2.grad_biases.getD i 0
            = l.grad_biases.getD i 0 + (samples.map (fun sm => sm.2.getD i 0)).sum) := by
  induction samples with
  | nil =>
    intro l _hWf _hs
    exact ⟨l, rfl, rfl, rfl, rfl, rfl,
      fun i _ j _ => by simp, fun i _ => by simp⟩
  | cons sm rest ih =>
    obtain ⟨x, g⟩ := sm
    intro l hWf hs
    obtain ⟨hin, hout, hwl, hrow, hbl, hgwl, hgrow, hgbl⟩ := hWf
    have hx : x.length = l.input_size := (hs (x, g) (by simp)).1
    have hg : g.length = l.output_size := (hs (x, g) (by simp)).2
    have hw : l.weights.isEmpty = false :=
      isEmpty_false_of_length_pos _ (by omega)
    have hb : l.biases.isEmpty = false :=
      isEmpty_false_of_length_pos _ (by omega)
    -- the layer after forward: only the cache changes
    set lf : DenseLayer := { l with input_cache := x } with hlf
    have hcache : lf.input_cache.isEmpty = false :=
      isEmpty_false_of_length_pos _ (by simp [hlf]; omega)
    -- the layer after backward: gradients accumulated once
    set lb : DenseLayer := { lf with
      grad_weights := (List.range lf.output_size).map (fun i =>
        (List.range lf.input_size).map (fun j =>
          (lf.grad_weights.getD i []).getD j 0
          + g.getD i 0 * lf.input_cache.getD j 0)),
      grad_biases := (List.range lf.output_size).map (fun i =>
        lf.grad_biases.getD i 0 + g.getD i 0) } with hlb
    have hWfb : lb.Wf := by
      refine ⟨hin, hout, hwl, hrow, hbl, by simp [hlb], ?_, by simp [hlb]⟩
      intro row hrowmem
      simp [hlb] at hrowmem
      obtain ⟨i, _, hrw⟩ := hrowmem
      simp [← hrw]
    have hsrest : ∀ sm ∈ rest,
        sm.1.length = lb.input_size ∧ sm.2.length = lb.output_size := by
      intro sm hm
      exact hs sm (by simp [hm])
    obtain ⟨l2, hrun, hi1, hi2, hi3, hi4, hi5, hi6⟩ := ih lb hWfb hsrest
    refine ⟨l2, ?_, hi1, hi2, hi3, hi4, ?_, ?_⟩
    · show l.runPairs ((x, g) :: rest) = .ok l2
      rw [DenseLayer.runPairs]
      rw [forward_ok l x hx hw hb, except_bind_ok]
      rw [backward_ok lf g (by simpa [hlf] using hg) hcache, except_bind_ok]
      exact hrun
    · intro i hi j hj
      rw [hi5 i hi j hj]
      have hgw : (lb.grad_weights.getD i []).getD j 0
          = (l.grad_weights.getD i []).getD j 0 + g.getD i 0 * x.getD j 0 := by
        rw [hlb]
        simp only
        rw [getD_range_map _ _ hi, getD_range_map _ _ hj]
      rw [hgw]
      simp [add_assoc]
    · intro i hi
      rw [hi6 i hi]
      have hgb : lb.grad_biases.getD i 0
          = l.grad_biases.getD i 0 + g.getD i 0 := by
        rw [hlb]
        simp only
        rw [getD_range_map _ _ hi]
      rw [hgb]
      simp [add_assoc]

/-- **C4.**  `DenseLayer::backward` *adds* `g[i]·x_cache[j]` into
`grad_weights[i][j]` and `g[i]` into `grad_biases[i]` (it does not
overwrite); consequently, running `k` forward/backward pairs with no
`clearGradients` in between, starting from all-zero gradient arrays,
leaves the gradient arrays equal to the elementwise sum of the `k`
independent single-sample gradients `g_t[i]·x_t[j]` (resp. `g_t[i]`). -/
theorem dense_backward_accumulation (l : DenseLayer) (hWf : l.Wf) :
    (∀ g : List ℚ, g.length = l.output_size → l.input_cache ≠ [] →
      ∃ l2 gi, l.backward g = .ok (l2, gi)
        ∧ (∀ i < l.output_size, ∀ j < l.input_size,
            (l2.grad_weights.getD i []).getD j 0
              = (l.grad_weights.getD i []).getD j 0
                + g.getD i 0 * l.input_cache.getD j 0)
        ∧ (∀ i < l.output_size,
            l2.grad_biases.getD i 0 = l.grad_biases.getD i 0 + g.getD i 0))
    ∧ (∀ samples : List (List ℚ × List ℚ),
        (∀ sm ∈ samples,
          sm.1.length = l.input_size ∧ sm.2.length = l.output_size) →
        (∀ i < l.output_size, ∀ j < l.input_size,
          (l.grad_weights.getD i []).getD j 0 = 0) →
        (∀ i < l.output_size, l.grad_biases.getD i 0 = 0) →
        ∃ l2, l.runPairs samples = .ok l2
          ∧ (∀ i < l.output_size, ∀ j < l.input_size,
              (l2.grad_weights.getD i []).getD j 0
                = (samples.map (fun sm => sm.2.getD i 0 * sm.1.getD j 0)).sum)
          ∧ (∀ i < l.output_size,
              l2.grad_biases.getD i 0
                = (samples.map (fun sm => sm.2.getD i 0)).sum)) := by
  constructor
  · intro g hg hc
    have hcemp : l.input_cache.isEmpty = false := by
      cases hcl : l.input_cache with
      | nil => exact absurd hcl hc
      | cons a t => rfl
    refine ⟨_, _, backward_ok l g hg hcemp, ?_, ?_⟩
    · intro i hi j hj
      simp only
      rw [getD_range_map _ _ hi, getD_range_map _ _ hj]
    · intro i hi
      simp only
      rw [getD_range_map _ _ hi]
  · intro samples hs hz1 hz2
    obtain ⟨l2, hrun, _, _, _, _, h5, h6⟩ := runPairs_spec samples l hWf hs
    refine ⟨l2, hrun, ?_, ?_⟩
    · intro i hi j hj
      rw [h5 i hi j hj, hz1 i hi j hj, zero_add]
    · intro i hi
      rw [h6 i hi, hz2 i hi, zero_add]

/-- **C4 witness.** -/
theorem dense_backward_accumulation_witness :
    (⟨1, 1, [[2]], [0], [[0]], [0], [7]⟩ : DenseLayer).Wf
    ∧ (∃ l2 gi, (⟨1, 1, [[2]], [0], [[0]], [0], [7]⟩ : DenseLayer).backward [3]
        = .ok (l2, gi)
        ∧ (∀ i < 1, ∀ j < 1, (l2.grad_weights.getD i []).getD j 0
            = (([[0]] : List (List ℚ)).getD i []).getD j 0
              + ([3] : List ℚ).getD i 0 * ([7] : List ℚ).getD j 0)
        ∧ (∀ i < 1, l2.grad_biases.getD i 0
            = ([0] : List ℚ).getD i 0 + ([3] : List ℚ).getD i 0))
    ∧ (∃ l2, (⟨1, 1, [[2]], [0], [[0]], [0], [7]⟩ : DenseLayer).runPairs
          [([1], [3]), ([2], [5])] = .ok l2
        ∧ (∀ i < 1, ∀ j < 1, (l2.grad_weights.getD i []).getD j 0
            = (([([1], [3]), ([2], [5])] : List (List ℚ × List ℚ)).map
                (fun sm => sm.2.getD i 0 * sm.1.getD j 0)).sum)
        ∧ (∀ i < 1, l2.grad_biases.getD i 0
            = (([([1], [3]), ([2], [5])] : List (List ℚ × List ℚ)).map
                (fun sm => sm.2.getD i 0)).sum)) := by
  have hWf : (⟨1, 1, [[2]], [0], [[0]], [0], [7]⟩ : DenseLayer).Wf := by
    refine ⟨by norm_num, by norm_num, by simp, ?_, by simp, by simp, ?_, by simp⟩
    · intro row hrow
      simp at hrow
      simp [hrow]
    · intro row hrow
      simp at hrow
      simp [hrow]
  obtain ⟨h1, h2⟩ := dense_backward_accumulation ⟨1, 1, [[2]], [0], [[0]], [0], [7]⟩ hWf
  refine ⟨hWf, h1 [3] (by simp) (by simp), h2 [([1], [3]), ([2], [5])] ?_ ?_ ?_⟩
  · intro sm hm
    simp at hm
    rcases hm with h | h <;> simp [h]
  · intro i hi j hj
    interval_cases i
    interval_cases j
    simp
  · intro i hi
    interval_cases i
    simp

/-! ## C7 — one epoch's batches partition the row indices -/

theorem range'_map_getD (ind : List ℕ) (d : ℕ) :
    ∀ (m c : ℕ), c + m ≤ ind.length →
    (List.range' c m).map (fun i => ind.getD i d) = (ind.drop c).take m
  | 0, c, _h => by simp
  | m + 1, c, h => by
    have hc : c < ind.length := by omega
    rw [List.range'_succ, List.map_cons,
      range'_map_getD ind d m (c + 1) (by omega),
      List.getD_eq_getElem ind d hc, List.drop_eq_getElem_cons hc,
      List.take_succ_cons]

theorem epochCursors_flatten (dl : DataLoaderM) (hbs : 0 < dl.batch_size)
    (hlen : dl.indices.length = dl.n) (c : ℕ) :
    ((epochCursors dl.n dl.batch_size c).map dl.getIndices).flatten
      = dl.indices.drop c := by
  rw [epochCursors]
  split
  case isTrue h =>
    rw [List.map_cons, List.flatten_cons,
      epochCursors_flatten dl hbs hlen (c + dl.batch_size)]
    show dl.getIndices c ++ dl.indices.drop (c + dl.batch_size)
      = dl.indices.drop c
    unfold DataLoaderM.getIndices
    have hce : c ≤ min (c + dl.batch_size) dl.n := by omega
    have hslice : (List.range' c (min (c + dl.batch_size) dl.n - c)).map
          (fun i => dl.indices.getD i 0)
        = (dl.indices.drop c).take (min (c + dl.batch_size) dl.n - c) :=
      range'_map_getD dl.indices 0 _ c (by omega)
    have hdrop : dl.indices.drop (c + dl.batch_size)
        = dl.indices.drop (min (c + dl.batch_size) dl.n) := by
      rcases le_or_lt (c + dl.batch_size) dl.n with hle | hlt
      · rw [Nat.min_eq_left hle]
      · rw [Nat.min_eq_right (le_of_lt hlt)]
        rw [List.drop_eq_nil_of_le (by omega), List.drop_eq_nil_of_le (by omega)]
    have hdd : dl.indices.drop (min (c + dl.batch_size) dl.n)
        = (dl.indices.drop c).drop (min (c + dl.batch_size) dl.n - c) := by
      rw [List.drop_drop]
      congr 1
      omega
    dsimp only
    rw [hslice, hdrop, hdd, List.take_append_drop]
  case isFalse h =>
    have hcn : dl.n ≤ c := by omega
    rw [List.map_nil, List.flatten_nil,
      List.drop_eq_nil_of_le (by omega)]
termination_by dl.n - c
decreasing_by omega

/-- **C7.**  For every dataset of `n > 0` rows and batch size `b > 0`,
after `reset` (with `std::shuffle` modelled by any permutation-producing
`shuf`), the index sets of the batches produced in one epoch are
pairwise disjoint and their union is exactly `{0, …, n−1}`: the
concatenation of all batches is a permutation of `[0..n)`, so every row
index appears exactly once per epoch. -/
theorem dataloader_epoch_partition (shuf : List ℕ → List ℕ)
    (hshuf : ∀ ls : List ℕ, (shuf ls).Perm ls) (dl : DataLoaderM)
    (_hn : 0 < dl.n) (hbs : 0 < dl.batch_size) :
    (dl.reset shuf).epochBatches.flatten.Perm (List.range dl.n)
    ∧ (dl.reset shuf).epochBatches.Pairwise List.Disjoint
    ∧ (∀ i, (∃ b ∈ (dl.reset shuf).epochBatches, i ∈ b) ↔ i < dl.n) := by
  have hperm : (dl.reset shuf).indices.Perm (List.range dl.n) := by
    unfold DataLoaderM.reset
    dsimp only
    cases dl.shuffle with
    | true => simpa using hshuf (List.range dl.n)
    | false => simp
  have hlen : (dl.reset shuf).indices.length = (dl.reset shuf).n := by
    rw [hperm.length_eq]
    simp [DataLoaderM.reset]
  have hflat : (dl.reset shuf).epochBatches.flatten = (dl.reset shuf).indices := by
    unfold DataLoaderM.epochBatches
    simpa using epochCursors_flatten (dl.reset shuf) hbs hlen 0
  have hpermflat : (dl.reset shuf).epochBatches.flatten.Perm (List.range dl.n) := by
    rw [hflat]
    exact hperm
  refine ⟨hpermflat, ?_, ?_⟩
  · have hnd : (dl.reset shuf).epochBatches.flatten.Nodup :=
      hpermflat.nodup_iff.mpr (List.nodup_range dl.n)
    exact (List.nodup_flatten.mp hnd).2
  · intro i
    constructor
    · rintro ⟨b, hb, hib⟩
      have hmem : i ∈ (dl.reset shuf).epochBatches.flatten :=
        List.mem_flatten.mpr ⟨b, hb, hib⟩
      have := hpermflat.mem_iff.mp hmem
      simpa [List.mem_range] using this
    · intro hi
      have hmem : i ∈ (dl.reset shuf).epochBatches.flatten :=
        hpermflat.mem_iff.mpr (by simp [List.mem_range, hi])
      exact List.mem_flatten.mp hmem

/-- **C7 witness.** -/
theorem dataloader_epoch_partition_witness :
    (∀ ls : List ℕ, (id ls : List ℕ).Perm ls)
    ∧ (0 : ℕ) < 3 ∧ (0 : ℕ) < 2
    ∧ ((DataLoaderM.reset id ⟨3, 2, false, []⟩).epochBatches.flatten.Perm
        (List.range 3)
      ∧ (DataLoaderM.reset id ⟨3, 2, false, []⟩).epochBatches.Pairwise
          List.Disjoint
      ∧ (∀ i, (∃ b ∈ (DataLoaderM.reset id ⟨3, 2, false, []⟩).epochBatches,
          i ∈ b) ↔ i < 3)) :=
  ⟨fun ls => List.Perm.refl ls, by decide, by decide,
    dataloader_epoch_partition id (fun ls => List.Perm.refl ls)
      ⟨3, 2, false, []⟩ (by decide) (by decide)⟩
